import Mathlib

/-!
# nctl: the scrolling log box (internal/logbox/logbox.go) and the rows of get (get/get.go)

A shallow embedding of the log box model (`LogBox`, its `Update` and `View`),
of the pacing output adapter (`Output`) and of the tab-separated rows that the
get command writes (`Cmd.writeHeader`, `Cmd.writeTabRow`), followed by the
properties that are settled on it.

Conventions of the embedding

* Go `int` is `Int`; `len` of a slice is the `Nat` length of a list, cast.
* A slice is a `List`; a slice expression that Go rejects at run time makes
  the function return `Except.error`.
* The interrupt channel `chan bool` is explicit state: the list of the values
  sent on it so far, oldest first. A send is taken to complete (the channel is
  created and drained by the caller, outside this package).
* An `io.Writer` is explicit state. Where the code only passes it on, it is a
  value of any type; where the code writes to it, it is the list of the chunks
  handed to `Write`, oldest first, every write being accepted.
* The spinner (charmbracelet/bubbles), the margin style (lipgloss), the time
  formatting (package time) and the colouring (fatih/color) are libraries
  outside this repository: they are parameters of the embedding.
-/

namespace Logbox

/-! ## Data model -/

/-- Msg is the content message `type Msg struct { Line string; Done bool }`. -/
structure Msg where
  Line : String
  Done : Bool
deriving DecidableEq, Repr

/-- String is `func (r Msg) String() string`. -/
def Msg.String (r : Msg) : String :=
  r.Line

/-- SpinnerLib is the part of charmbracelet/bubbles/spinner the log box uses:
the spinner model, its tick message, the commands it hands back, the spinner
`New` builds, and the methods `Tick`, `Update` and `View`. The library is not
part of this repository, so it is a parameter. -/
structure SpinnerLib where
  Model : Type
  TickMsg : Type
  Cmd : Type
  New : Model
  Tick : Model → Cmd
  Update : Model → TickMsg → Model × Cmd
  View : Model → String

/-- TeaMsg is the dynamic type of the `tea.Msg` that `Update` switches on: a
key message (given by the value of its `String()`), a content message, a
spinner tick, or a message of any other type. -/
inductive TeaMsg (S : SpinnerLib) where
  | KeyMsg (s : String)
  | Msg (m : Msg)
  | TickMsg (t : S.TickMsg)
  | other

/-- Cmd is the `tea.Cmd` that `Update` returns: `nil`, `tea.Quit`, or the
command the spinner returned. -/
inductive Cmd (S : SpinnerLib) where
  | nil
  | Quit
  | spinner (c : S.Cmd)

/-- Fault is a Go run-time panic reached by the embedded code. -/
inductive Fault where
  | sliceBounds
deriving DecidableEq, Repr

/-- LogBox is `type LogBox struct`; `interrupt` is the log of the values sent
on the interrupt channel, oldest first. -/
structure LogBox (S : SpinnerLib) where
  height : Int
  waitMessage : String
  results : List Msg
  quitting : Bool
  spinner : S.Model
  interrupt : List Bool

/-- New is `func New(height int, waitMessage string, interrupt chan bool)`. -/
def New (S : SpinnerLib) (height : Int) (waitMessage : String)
    (interrupt : List Bool) : LogBox S :=
  { height := height
    waitMessage := waitMessage
    spinner := S.New
    results := []
    quitting := false
    interrupt := interrupt }

/-- Init is `func (lb LogBox) Init() tea.Cmd`. -/
def LogBox.Init {S : SpinnerLib} (lb : LogBox S) : Cmd S :=
  Cmd.spinner (S.Tick lb.spinner)

/-- Update is `func (lb LogBox) Update(msg tea.Msg) (tea.Model, tea.Cmd)`.
The slice expression `lb.results[1:]` panics on an empty slice. -/
def LogBox.Update {S : SpinnerLib} (lb : LogBox S) :
    TeaMsg S → Except Fault (LogBox S × Cmd S)
  | TeaMsg.KeyMsg s =>
    if s = "ctrl+c" ∨ s = "ctrl+d" then
      Except.ok ({ lb with interrupt := lb.interrupt ++ [true] }, Cmd.Quit)
    else
      Except.ok (lb, Cmd.nil)
  | TeaMsg.Msg msg =>
    if msg.Done then
      Except.ok ({ lb with quitting := true }, Cmd.Quit)
    else if (lb.results.length : Int) = lb.height then
      match lb.results with
      | [] => Except.error Fault.sliceBounds
      | _ :: rest => Except.ok ({ lb with results := rest ++ [msg] }, Cmd.nil)
    else
      Except.ok ({ lb with results := lb.results ++ [msg] }, Cmd.nil)
  | TeaMsg.TickMsg t =>
    let r := S.Update lb.spinner t
    Except.ok ({ lb with spinner := r.1 }, Cmd.spinner r.2)
  | TeaMsg.other => Except.ok (lb, Cmd.nil)

/-- View is `func (lb LogBox) View() string`; `appStyle` is the rendering of
the outer margin style `appStyle.Render`. -/
def LogBox.View {S : SpinnerLib} (appStyle : String → String) (lb : LogBox S) : String :=
  let s := ""
  let s := if !lb.quitting then s ++ (S.View lb.spinner ++ lb.waitMessage) else s
  if lb.quitting then
    appStyle (s ++ ("✓" ++ lb.waitMessage))
  else
    let s := if lb.results.length > 0 then s ++ "\n\n" else s
    let s := lb.results.foldl (fun acc res => acc ++ (res.String ++ "\n")) s
    appStyle s

/-- The event loop seen from the model: the messages of the list are handed to
`Update` one after the other, each on the model the previous call returned.
A panic stops the run. -/
def feed {S : SpinnerLib} (lb : LogBox S) : List (TeaMsg S) → Except Fault (LogBox S)
  | [] => Except.ok lb
  | m :: ms =>
    match lb.Update m with
    | Except.error e => Except.error e
    | Except.ok (lb1, _) => feed lb1 ms

/-! ## The pacing output adapter -/

/-- IsSpace is Go's `unicode.IsSpace`: the Latin-1 spaces tab, line feed,
vertical tab, form feed, carriage return, space, U+0085 and U+00A0, and above
Latin-1 the code points with the White_Space property. -/
def IsSpace (r : Char) : Bool :=
  let c := r.toNat
  if c ≤ 0xFF then
    c = 0x09 || c = 0x0A || c = 0x0B || c = 0x0C || c = 0x0D || c = 0x20
      || c = 0x85 || c = 0xA0
  else
    c = 0x1680 || (0x2000 ≤ c && c ≤ 0x200A) || c = 0x2028 || c = 0x2029
      || c = 0x202F || c = 0x205F || c = 0x3000

/-- TrimSpace is Go's `strings.TrimSpace`: the string without its leading and
its trailing white space, as `TrimRightFunc(TrimLeftFunc(s, IsSpace), IsSpace)`.
A string is taken as its sequence of runes. -/
def TrimSpace (s : String) : String :=
  ⟨List.rdropWhile IsSpace (s.data.dropWhile IsSpace)⟩

/-- FormatLib is what `FormatAndPrintln` takes from package time and from
fatih/color: the time type, `ts.In(time.Local).Format(time.RFC3339)` and
`color.BlueString`. Both depend on the process environment (local zone, colour
support), so they are parameters. -/
structure FormatLib where
  Time : Type
  LocalRFC3339 : Time → String
  BlueString : String → String

/-- LabelSet is `loghttp.LabelSet`, a map from label names to values. -/
abbrev LabelSet := List (String × String)

/-- Millisecond is `time.Millisecond`, a `time.Duration` in nanoseconds. -/
def Millisecond : Int := 1000000

/-- Program is the `*tea.Program` behind an `Output`, as far as the adapter
acts on it: the messages handed to `Send`, oldest first. -/
structure Program where
  msgs : List Msg
deriving DecidableEq, Repr

/-- Send is `(*tea.Program).Send`: the message joins the program's queue. -/
def Program.Send (p : Program) (msg : Msg) : Program :=
  { p with msgs := p.msgs ++ [msg] }

/-- Output is `type Output struct { *tea.Program }`, with the time the adapter
has spent in `time.Sleep`, in nanoseconds. -/
structure Output where
  Program : Program
  slept : Nat
deriving DecidableEq, Repr

/-- The method `func (f *Output) delaySend(d time.Duration, msg Msg)`:
`time.Sleep(d)` (which returns at once for `d ≤ 0`), then `f.Send(msg)`. -/
def Output.delaySend (f : Output) (d : Int) (msg : Msg) : Output :=
  let f := { f with slept := f.slept + d.toNat }
  { f with Program := f.Program.Send msg }

/-- The method `func (f *Output) FormatAndPrintln(ts time.Time,
lbls loghttp.LabelSet, maxLabelsLen int, line string)`; the message literal
leaves `Done` at its zero value. -/
def Output.FormatAndPrintln (L : FormatLib) (f : Output) (ts : L.Time)
    (_lbls : LabelSet) (_maxLabelsLen : Int) (line : String) : Output :=
  let timestamp := L.LocalRFC3339 ts
  let line := TrimSpace line
  f.delaySend (Millisecond * 10)
    { Line := L.BlueString timestamp ++ " " ++ line, Done := false }

/-- LogLine is one call of `FormatAndPrintln` by the log source. -/
structure LogLine (L : FormatLib) where
  ts : L.Time
  lbls : LabelSet
  maxLabelsLen : Int
  line : String

/-- The log source calling `FormatAndPrintln` once per line, one call after
the other. -/
def Output.printAll (L : FormatLib) (f : Output) : List (LogLine L) → Output
  | [] => f
  | l :: ls =>
    Output.printAll L (f.FormatAndPrintln L l.ts l.lbls l.maxLabelsLen l.line) ls

/-- Calls of `delaySend` one after the other, each with its own delay. -/
def Output.delaySendAll (f : Output) : List (Int × Msg) → Output
  | [] => f
  | dm :: rest => Output.delaySendAll (f.delaySend dm.1 dm.2) rest

/-- The method `func (f *Output) WithWriter(w io.Writer) output.LogOutput`,
which returns `f`. The writer is a value of any type `W`; it is handed back
next to the result, as the state the call leaves it in. -/
def Output.WithWriter {W : Type} (f : Output) (w : W) : Output × W :=
  (f, w)

/-! ## A sample spinner and formatter, for evaluating the model on concrete inputs -/

/-- A formatter whose times are given by their RFC 3339 text in the local
zone, coloured with the ANSI blue escape sequence. -/
def sampleFormat : FormatLib where
  Time := String
  LocalRFC3339 := fun t => t
  BlueString := fun s => "\x1b[34m" ++ s ++ "\x1b[0m"

/-- The same formatter with colours switched off (`color.NoColor`). -/
def plainFormat : FormatLib where
  Time := String
  LocalRFC3339 := fun t => t
  BlueString := fun s => s

/-- An output adapter that has sent nothing yet. -/
def freshOutput : Output :=
  { Program := { msgs := [] }, slept := 0 }

/-- The frames of `spinner.MiniDot`. -/
def miniDotFrames : List String :=
  ["⠋", "⠙", "⠹", "⠸", "⠼", "⠴", "⠦", "⠧", "⠇", "⠏"]

/-- A spinner that steps through the MiniDot frames on every tick; its model is
the frame index and its command the index of the next tick. -/
def miniDot : SpinnerLib where
  Model := Nat
  TickMsg := Unit
  Cmd := Nat
  New := 0
  Tick := fun m => m
  Update := fun m _ => ((m + 1) % 10, (m + 1) % 10)
  View := fun m => miniDotFrames.getD m "(error)"

/-- A non-terminal content message carrying `s`. -/
def line (s : String) : Msg :=
  { Line := s, Done := false }

/-! ## Notions used in the statements -/

/-- Whether a message is a spinner tick. -/
def TeaMsg.isTick {S : SpinnerLib} : TeaMsg S → Bool
  | TeaMsg.TickMsg _ => true
  | _ => false

/-- Everything of a log box but its spinner: height, wait message, buffer,
done flag and interrupt log. -/
def LogBox.core {S : SpinnerLib} (lb : LogBox S) :
    Int × String × List Msg × Bool × List Bool :=
  (lb.height, lb.waitMessage, lb.results, lb.quitting, lb.interrupt)

/-- The number of messages in a queue that have `Done` set. -/
def doneCount (msgs : List Msg) : Nat :=
  msgs.countP (fun m => m.Done)

end Logbox

namespace Get

/-! ## The rows of the get command (get/get.go) -/

/-- Writer is an `io.Writer` that accepts every write: the chunks handed to
`Write`, oldest first. -/
structure Writer where
  chunks : List String
deriving DecidableEq, Repr

/-- The bytes a writer has received, in order. -/
def Writer.bytes (w : Writer) : String :=
  String.join w.chunks

/-- Fprintf is `fmt.Fprintf(w, format, a...)` with the format already expanded
to `text` (the verb `%s` prints a string as it is): one `Write` of the text.
The code drops the error result. -/
def Fprintf (w : Writer) (text : String) : Writer :=
  { w with chunks := w.chunks ++ [text] }

/-- Cmd is `type Cmd struct` of package get, with the two fields that decide
what is written; the subcommands and the list options play no part in it. -/
structure Cmd where
  Output : String
  AllNamespaces : Bool
deriving DecidableEq, Repr

/-- The method `func (cmd *Cmd) writeTabRow(w io.Writer, namespace string,
row ...string)`; `len(namespace)` is zero exactly when the string has no
character. -/
def Cmd.writeTabRow (cmd : Cmd) (w : Writer) (nspace : String) (row : List String) :
    Writer :=
  let w := if cmd.AllNamespaces && nspace.length != 0 then Fprintf w (nspace ++ "\t") else w
  let w := row.foldl (fun w r => Fprintf w (r ++ "\t")) w
  Fprintf w "\n"

/-- The method `func (cmd *Cmd) writeHeader(w io.Writer, headings ...string)`. -/
def Cmd.writeHeader (cmd : Cmd) (w : Writer) (headings : List String) : Writer :=
  let headings := if cmd.AllNamespaces then ["NAMESPACE"] ++ headings else headings
  cmd.writeTabRow w "" headings

/-- A writer that has received nothing yet. -/
def emptyWriter : Writer :=
  { chunks := [] }

/-- The number of tab-terminated columns in the bytes a writer has received:
every column ends with a tab, so this is the number of tab characters. -/
def Writer.columns (w : Writer) : Nat :=
  w.bytes.data.count '\t'

end Get

namespace Logbox

/-! ## Lemmas on lists -/

theorem drop_excess_append (h : Nat) (r ms : List Msg) :
    (r.drop (r.length - h) ++ ms).drop ((r.drop (r.length - h) ++ ms).length - h)
      = (r ++ ms).drop ((r ++ ms).length - h) := by
  rcases Nat.le_total r.length h with hle | hge
  · have h0 : r.length - h = 0 := by omega
    simp [h0]
  · have e1 : (r.drop (r.length - h) ++ ms).length - h = ms.length := by
      simp only [List.length_append, List.length_drop]; omega
    have e2 : (r ++ ms).length - h = (r.length - h) + ms.length := by
      simp only [List.length_append]; omega
    have e3 : (r ++ ms).drop (r.length - h + ms.length)
        = ((r ++ ms).drop (r.length - h)).drop ms.length := by
      rw [List.drop_drop]
    have e4 : (r ++ ms).drop (r.length - h) = r.drop (r.length - h) ++ ms :=
      List.drop_append_of_le_length (Nat.sub_le _ _)
    rw [e1, e2, e3, e4]

/-! ## The content path of Update -/

/-- On a non-terminal content message, a log box of height `h ≥ 1` holding at
most `h` lines returns, with no command, the box whose buffer is the old buffer
with the message appended, cut down to its last `h` lines. -/
theorem Update_content {S : SpinnerLib} (lb : LogBox S) (m : Msg) (h : Nat)
    (h1 : 1 ≤ h) (hh : lb.height = h) (hlen : lb.results.length ≤ h)
    (hm : m.Done = false) :
    lb.Update (TeaMsg.Msg m) = Except.ok
      ({ lb with results :=
          (lb.results ++ [m]).drop ((lb.results ++ [m]).length - h) }, Cmd.nil) := by
  simp only [LogBox.Update, hm, hh, Bool.false_eq_true, if_false]
  by_cases hfull : lb.results.length = h
  · have hfull2 : ((lb.results.length : Nat) : Int) = (h : Int) := by exact_mod_cast hfull
    rw [if_pos hfull2]
    cases hr : lb.results with
    | nil => rw [hr] at hfull; simp at hfull; omega
    | cons a rest =>
      rw [hr] at hfull
      simp only [List.length_cons] at hfull
      have : (a :: rest ++ [m]).length - h = 1 := by simp; omega
      rw [this]
      simp
  · have hne : ¬ (((lb.results.length : Nat) : Int) = (h : Int)) := by exact_mod_cast hfull
    rw [if_neg hne]
    have : (lb.results ++ [m]).length - h = 0 := by simp; omega
    rw [this]
    simp

/-- Feeding non-terminal content messages to a log box of height `h ≥ 1` that
holds at most `h` lines leaves the last `h` lines of the old buffer followed by
the messages. -/
theorem feed_content {S : SpinnerLib} (h : Nat) (h1 : 1 ≤ h) (msgs : List Msg) :
    ∀ lb : LogBox S, lb.height = h → lb.results.length ≤ h →
      (∀ m ∈ msgs, m.Done = false) →
      feed lb (msgs.map TeaMsg.Msg) = Except.ok
        { lb with results :=
            (lb.results ++ msgs).drop ((lb.results ++ msgs).length - h) } := by
  induction msgs with
  | nil =>
    intro lb _ hlen _
    have : lb.results.length - h = 0 := by omega
    simp [feed, this]
  | cons m ms ih =>
    intro lb hh hlen hd
    have hm : m.Done = false := hd m (List.mem_cons_self _ _)
    simp only [List.map_cons, feed, Update_content lb m h h1 hh hlen hm]
    have step := ih
      { lb with results := (lb.results ++ [m]).drop ((lb.results ++ [m]).length - h) }
      hh (by simp only [List.length_drop, List.length_append]; omega)
      (fun x hx => hd x (List.mem_cons_of_mem _ hx))
    rw [step]
    simp only
    rw [drop_excess_append h (lb.results ++ [m]) ms]
    simp

/-- One step keeps the bound: a log box of height `h ≥ 1` holding at most `h`
lines answers every message without a panic, keeps its height and still holds
at most `h` lines. -/
theorem Update_bounded {S : SpinnerLib} (lb : LogBox S) (e : TeaMsg S) (h : Nat)
    (h1 : 1 ≤ h) (hh : lb.height = h) (hlen : lb.results.length ≤ h) :
    ∃ lb1 c, lb.Update e = Except.ok (lb1, c) ∧ lb1.height = h
      ∧ lb1.results.length ≤ h := by
  cases e with
  | KeyMsg s =>
    by_cases hs : s = "ctrl+c" ∨ s = "ctrl+d"
    · simp only [LogBox.Update, if_pos hs]
      exact ⟨_, _, rfl, hh, hlen⟩
    · simp only [LogBox.Update, if_neg hs]
      exact ⟨_, _, rfl, hh, hlen⟩
  | Msg m =>
    cases hd : m.Done with
    | true =>
      simp only [LogBox.Update, hd, if_true]
      exact ⟨_, _, rfl, hh, hlen⟩
    | false =>
      refine ⟨_, _, Update_content lb m h h1 hh hlen hd, hh, ?_⟩
      simp only [List.length_drop, List.length_append, List.length_singleton]
      omega
  | TickMsg t => exact ⟨_, _, rfl, hh, hlen⟩
  | other => exact ⟨_, _, rfl, hh, hlen⟩

/-- The bound is kept along every run. -/
theorem feed_bounded {S : SpinnerLib} (h : Nat) (h1 : 1 ≤ h) (evs : List (TeaMsg S)) :
    ∀ lb : LogBox S, lb.height = h → lb.results.length ≤ h →
      ∃ lb1, feed lb evs = Except.ok lb1 ∧ lb1.height = h ∧ lb1.results.length ≤ h := by
  induction evs with
  | nil => intro lb hh hlen; exact ⟨lb, rfl, hh, hlen⟩
  | cons e es ih =>
    intro lb hh hlen
    obtain ⟨lb1, c, hu, hh1, hlen1⟩ := Update_bounded lb e h h1 hh hlen
    obtain ⟨lb2, hf, hh2, hlen2⟩ := ih lb1 hh1 hlen1
    exact ⟨lb2, by simp only [feed, hu, hf], hh2, hlen2⟩

/-- A run over two lists in a row is the run over the first, followed by the
run over the second from the box reached. -/
theorem feed_append {S : SpinnerLib} (xs ys : List (TeaMsg S)) :
    ∀ lb : LogBox S, feed lb (xs ++ ys) =
      match feed lb xs with
      | Except.error e => Except.error e
      | Except.ok lb1 => feed lb1 ys := by
  induction xs with
  | nil => intro lb; rfl
  | cons x xs ih =>
    intro lb
    simp only [List.cons_append, feed]
    cases lb.Update x with
    | error e => rfl
    | ok r => exact ih r.1

/-! ## The buffer policy -/

/-- C1: for every height ≥ 1 and every k, feeding height+k non-terminal content
messages one by one through Update, starting from New(height, ...), returns a
log box whose buffer is exactly the last height messages of the sequence, in
their original order (the sequence without its first k messages). -/
theorem results_last_height (S : SpinnerLib) (height : Int) (k : Nat)
    (waitMessage : String) (interrupt : List Bool) (msgs : List Msg)
    (hh : 1 ≤ height) (hlen : (msgs.length : Int) = height + k)
    (hnt : ∀ m ∈ msgs, m.Done = false) :
    ∃ lb, feed (New S height waitMessage interrupt) (msgs.map TeaMsg.Msg) = Except.ok lb
      ∧ lb.results = msgs.drop k ∧ (lb.results.length : Int) = height := by
  obtain ⟨h, rfl⟩ := Int.eq_ofNat_of_zero_le (by omega : 0 ≤ height)
  have h1 : 1 ≤ h := by omega
  have hk : msgs.length - h = k := by omega
  have hf := feed_content h h1 msgs (New S h waitMessage interrupt) rfl
    (by simp [New]) hnt
  refine ⟨_, hf, ?_, ?_⟩
  · simp [New, hk]
  · simp only [New, List.nil_append, List.length_drop]; omega

/-- C1, the scenario of the specification: height 3 and the lines a, b, c, d
leave the buffer b, c, d. -/
theorem results_last_height_witness :
    ∃ lb, feed (New miniDot 3 "wait" [])
        ([line "a", line "b", line "c", line "d"].map TeaMsg.Msg) = Except.ok lb
      ∧ lb.results = [line "b", line "c", line "d"] ∧ (lb.results.length : Int) = 3 :=
  results_last_height miniDot 3 1 "wait" [] [line "a", line "b", line "c", line "d"]
    (by decide) (by decide) (by decide)

/-- C2: for every log box created by New with height ≥ 1 and every finite
sequence of messages of any kind (keys, ticks, content, terminal, unknown), the
run through Update goes through and after every step (after the first n
messages, for every n) the buffer holds at most height lines. -/
theorem results_length_le_height (S : SpinnerLib) (height : Int)
    (waitMessage : String) (interrupt : List Bool) (evs : List (TeaMsg S)) (n : Nat)
    (hh : 1 ≤ height) :
    ∃ lb, feed (New S height waitMessage interrupt) (evs.take n) = Except.ok lb
      ∧ (lb.results.length : Int) ≤ height := by
  obtain ⟨h, rfl⟩ := Int.eq_ofNat_of_zero_le (by omega : 0 ≤ height)
  obtain ⟨lb, hf, _, hlen⟩ := feed_bounded h (by omega) (evs.take n)
    (New S h waitMessage interrupt) rfl (by simp [New])
  exact ⟨lb, hf, by exact_mod_cast hlen⟩

/-- C2 at height 2 on a run mixing all kinds of messages. -/
theorem results_length_le_height_witness :
    ∃ lb, feed (New miniDot 2 "wait" [])
        ([TeaMsg.Msg (line "a"), TeaMsg.TickMsg (), TeaMsg.Msg (line "b"),
          TeaMsg.KeyMsg "x", TeaMsg.Msg (line "c"), TeaMsg.other,
          TeaMsg.Msg { Line := "", Done := true }, TeaMsg.Msg (line "d")].take 8)
        = Except.ok lb
      ∧ (lb.results.length : Int) ≤ 2 :=
  results_length_le_height miniDot 2 "wait" [] _ 8 (by decide)

/-! ## After the terminal message -/

/-- C3 fails as stated: the box made by New(3, ...) turns Done on a terminal
message, and a content message that follows is still appended: the buffer goes
from empty to one line. -/
theorem done_then_content_appends :
    ∃ lb0 lb1 : LogBox miniDot,
      (New miniDot 3 "wait" []).Update (TeaMsg.Msg { Line := "", Done := true })
        = Except.ok (lb0, Cmd.Quit)
      ∧ lb0.quitting = true ∧ lb0.results = []
      ∧ lb0.Update (TeaMsg.Msg (line "late")) = Except.ok (lb1, Cmd.nil)
      ∧ lb1.results = [line "late"] ∧ lb1.results ≠ lb0.results :=
  ⟨{ New miniDot 3 "wait" [] with quitting := true },
   { New miniDot 3 "wait" [] with quitting := true, results := [line "late"] },
   rfl, rfl, rfl, rfl, rfl, by decide⟩

/-- C3 as amended: in a Done state (of height ≥ 1, holding at most height
lines) Update on a further content message returns a state that is still Done;
a terminal message leaves the buffer unchanged and asks to quit again, while a
non-terminal message is appended as before Done, the oldest line being evicted
at capacity, with no command. -/
theorem Update_content_when_done (S : SpinnerLib) (lb : LogBox S) (m : Msg)
    (hq : lb.quitting = true) (hh : 1 ≤ lb.height)
    (hlen : (lb.results.length : Int) ≤ lb.height) :
    ∃ lb1 c, lb.Update (TeaMsg.Msg m) = Except.ok (lb1, c)
      ∧ lb1.quitting = true
      ∧ (m.Done = true → lb1 = lb ∧ c = Cmd.Quit)
      ∧ (m.Done = false → c = Cmd.nil ∧ lb1.results =
          if (lb.results.length : Int) = lb.height then lb.results.tail ++ [m]
          else lb.results ++ [m]) := by
  obtain ⟨h, hH⟩ := Int.eq_ofNat_of_zero_le (by omega : 0 ≤ lb.height)
  have h1 : 1 ≤ h := by omega
  have hl : lb.results.length ≤ h := by omega
  cases hd : m.Done with
  | true =>
    refine ⟨lb, Cmd.Quit, ?_, hq, fun _ => ⟨rfl, rfl⟩, fun hc => (by cases hc)⟩
    simp only [LogBox.Update, hd, if_true]
    rw [← hq]
  | false =>
    refine ⟨_, _, Update_content lb m h h1 hH hl hd, hq, fun hc => (by cases hc),
      fun _ => ⟨rfl, ?_⟩⟩
    simp only [List.length_append, List.length_singleton]
    by_cases hfull : lb.results.length = h
    · have hfull2 : (lb.results.length : Int) = lb.height := by omega
      rw [if_pos hfull2]
      have e : lb.results.length + 1 - h = 1 := by omega
      rw [e]
      cases hr : lb.results with
      | nil => rw [hr] at hfull; simp at hfull; omega
      | cons a rest => simp
    · have hfull2 : ¬ (lb.results.length : Int) = lb.height := by omega
      rw [if_neg hfull2]
      have e : lb.results.length + 1 - h = 0 := by omega
      rw [e]
      simp

/-- C3 as amended, on a Done box of height 2 that is full: the late line "c"
evicts "a". -/
theorem Update_content_when_done_witness :
    ∃ lb1 c,
      ({ New miniDot 2 "wait" [] with results := [line "a", line "b"], quitting := true }
        : LogBox miniDot).Update (TeaMsg.Msg (line "c")) = Except.ok (lb1, c)
      ∧ lb1.quitting = true
      ∧ ((line "c").Done = true →
          lb1 = { New miniDot 2 "wait" [] with
                  results := [line "a", line "b"], quitting := true } ∧ c = Cmd.Quit)
      ∧ ((line "c").Done = false → c = Cmd.nil ∧ lb1.results =
          if (([line "a", line "b"] : List Msg).length : Int) = 2
          then [line "a", line "b"].tail ++ [line "c"]
          else [line "a", line "b"] ++ [line "c"]) :=
  Update_content_when_done miniDot
    { New miniDot 2 "wait" [] with results := [line "a", line "b"], quitting := true }
    (line "c") rfl (by decide) (by decide)

/-! ## The interrupt channel -/

/-- C4 fails as stated: two quit keys handed to Update on New(3, ...) leave two
values on the interrupt channel, not one. -/
theorem two_quit_keys_two_signals :
    ∃ lb : LogBox miniDot,
      feed (New miniDot 3 "wait" []) [TeaMsg.KeyMsg "ctrl+c", TeaMsg.KeyMsg "ctrl+d"]
        = Except.ok lb
      ∧ lb.interrupt = [true, true] ∧ lb.interrupt.length ≠ 1 :=
  ⟨{ New miniDot 3 "wait" [] with interrupt := [true, true] }, rfl, rfl, by decide⟩

/-- C4 as amended: processing n quit keys (ctrl+c or ctrl+d) through Update
writes exactly n interrupt signals in total, one per key, after those already
on the channel, and changes nothing else of the log box; so exactly one signal
is written only for n = 1. -/
theorem quit_keys_signal_each (S : SpinnerLib) (keys : List String) :
    ∀ lb : LogBox S, (∀ s ∈ keys, s = "ctrl+c" ∨ s = "ctrl+d") →
      feed lb (keys.map TeaMsg.KeyMsg) = Except.ok
        { lb with interrupt := lb.interrupt ++ List.replicate keys.length true } := by
  induction keys with
  | nil => intro lb _; simp [feed]
  | cons s ss ih =>
    intro lb hk
    have hs : s = "ctrl+c" ∨ s = "ctrl+d" := hk s (List.mem_cons_self _ _)
    have step := ih { lb with interrupt := lb.interrupt ++ [true] }
      (fun x hx => hk x (List.mem_cons_of_mem _ hx))
    simp only [List.map_cons, feed, LogBox.Update, if_pos hs, step]
    simp [List.replicate_succ]

/-- C4 as amended, for three quit keys on a fresh box: three signals. -/
theorem quit_keys_signal_each_witness :
    feed (New miniDot 3 "wait" []) (["ctrl+c", "ctrl+d", "ctrl+c"].map TeaMsg.KeyMsg)
      = Except.ok { New miniDot 3 "wait" [] with
          interrupt := (New miniDot 3 "wait" []).interrupt
            ++ List.replicate ["ctrl+c", "ctrl+d", "ctrl+c"].length true } :=
  quit_keys_signal_each miniDot ["ctrl+c", "ctrl+d", "ctrl+c"] (New miniDot 3 "wait" [])
    (by decide)

/-! ## Spinner ticks -/

/-- Update does not look at the spinner unless the message is a tick: two
boxes that differ in the spinner at most either both panic, or both return
boxes that again differ in the spinner at most. -/
theorem Update_core {S : SpinnerLib} (a b : LogBox S) (e : TeaMsg S)
    (hc : a.core = b.core) :
    (∃ f, a.Update e = Except.error f ∧ b.Update e = Except.error f)
    ∨ (∃ a1 c1 b1 c2, a.Update e = Except.ok (a1, c1) ∧ b.Update e = Except.ok (b1, c2)
        ∧ a1.core = b1.core) := by
  simp only [LogBox.core, Prod.mk.injEq] at hc
  obtain ⟨hh, hw, hr, hq, hi⟩ := hc
  cases e with
  | KeyMsg s =>
    right
    by_cases hs : s = "ctrl+c" ∨ s = "ctrl+d"
    · simp only [LogBox.Update, if_pos hs]
      exact ⟨_, _, _, _, rfl, rfl, by simp [LogBox.core, hh, hw, hr, hq, hi]⟩
    · simp only [LogBox.Update, if_neg hs]
      exact ⟨_, _, _, _, rfl, rfl, by simp [LogBox.core, hh, hw, hr, hq, hi]⟩
  | Msg m =>
    cases hd : m.Done with
    | true =>
      right
      simp only [LogBox.Update, hd, if_true]
      exact ⟨_, _, _, _, rfl, rfl, by simp [LogBox.core, hh, hw, hr, hi]⟩
    | false =>
      simp only [LogBox.Update, hd, Bool.false_eq_true, if_false, hh, hr]
      by_cases hfull : (b.results.length : Int) = b.height
      · simp only [if_pos hfull]
        cases b.results with
        | nil => left; exact ⟨_, rfl, rfl⟩
        | cons x rest =>
          right
          exact ⟨_, _, _, _, rfl, rfl, by simp [LogBox.core, hw, hq, hi]⟩
      · simp only [if_neg hfull]
        right
        exact ⟨_, _, _, _, rfl, rfl, by simp [LogBox.core, hw, hq, hi]⟩
  | TickMsg t =>
    right
    exact ⟨_, _, _, _, rfl, rfl, by simp [LogBox.core, hh, hw, hr, hq, hi]⟩
  | other =>
    right
    exact ⟨_, _, _, _, rfl, rfl, by simp [LogBox.core, hh, hw, hr, hq, hi]⟩

/-- Leaving the ticks out of a run changes the spinner at most. -/
theorem feed_without_ticks {S : SpinnerLib} (evs : List (TeaMsg S)) :
    ∀ a b : LogBox S, a.core = b.core →
      (feed a evs).map LogBox.core
        = (feed b (evs.filter (fun e => !e.isTick))).map LogBox.core := by
  induction evs with
  | nil => intro a b hc; simp [feed, Except.map, hc]
  | cons e es ih =>
    intro a b hc
    cases hk : e.isTick with
    | true =>
      cases e with
      | TickMsg t =>
        simp only [List.filter_cons, hk, Bool.not_true, Bool.false_eq_true, if_false]
        exact ih _ b (by simpa [LogBox.core] using hc)
      | KeyMsg s => cases hk
      | Msg m => cases hk
      | other => cases hk
    | false =>
      simp only [List.filter_cons, hk, Bool.not_false, if_true, feed]
      rcases Update_core a b e hc with ⟨f, ha, hb⟩ | ⟨a1, c1, b1, c2, ha, hb, hc1⟩
      · simp only [ha, hb, Except.map]
      · simp only [ha, hb]
        exact ih a1 b1 hc1

/-- C5: on every spinner tick Update returns, without a panic, a box with the
same buffer (same lines, same order), height, wait message, done flag and
interrupt log, so only the spinner may have changed; hence the buffer after any
run equals the buffer after the same run with its ticks left out (and the one
run panics exactly when the other does). -/
theorem tick_leaves_buffer (S : SpinnerLib) :
    (∀ (lb : LogBox S) (t : S.TickMsg), ∃ lb1 c,
        lb.Update (TeaMsg.TickMsg t) = Except.ok (lb1, c)
        ∧ lb1.results = lb.results ∧ lb1.height = lb.height
        ∧ lb1.waitMessage = lb.waitMessage ∧ lb1.quitting = lb.quitting
        ∧ lb1.interrupt = lb.interrupt)
    ∧ (∀ (lb : LogBox S) (evs : List (TeaMsg S)),
        (feed lb evs).map (fun x => x.results)
          = (feed lb (evs.filter (fun e => !e.isTick))).map (fun x => x.results)) := by
  refine ⟨fun lb t => ⟨_, _, rfl, rfl, rfl, rfl, rfl, rfl⟩, fun lb evs => ?_⟩
  have hcore := feed_without_ticks evs lb lb rfl
  cases h1 : feed lb evs with
  | error f =>
    cases h2 : feed lb (evs.filter (fun e => !e.isTick)) with
    | error g => cases f; cases g; rfl
    | ok y => rw [h1, h2] at hcore; simp [Except.map] at hcore
  | ok x =>
    cases h2 : feed lb (evs.filter (fun e => !e.isTick)) with
    | error g => rw [h1, h2] at hcore; simp [Except.map] at hcore
    | ok y =>
      rw [h1, h2] at hcore
      simp only [Except.map, Except.ok.injEq, LogBox.core, Prod.mk.injEq] at hcore
      simp [Except.map, hcore.2.2.1]

/-! ## Order of delivery -/

/-- A call of delaySend adds its message at the end of the queue, whatever
the delay. -/
theorem delaySend_msgs (f : Output) (d : Int) (msg : Msg) :
    (f.delaySend d msg).Program.msgs = f.Program.msgs ++ [msg] := rfl

/-- Calls of delaySend in a row add their messages in the order of the calls. -/
theorem delaySendAll_msgs (dms : List (Int × Msg)) :
    ∀ f : Output, (f.delaySendAll dms).Program.msgs
      = f.Program.msgs ++ dms.map Prod.snd := by
  induction dms with
  | nil => intro f; simp [Output.delaySendAll]
  | cons dm rest ih =>
    intro f
    simp only [Output.delaySendAll, ih, delaySend_msgs, List.map_cons, List.append_assoc,
      List.singleton_append]

/-- Calls of FormatAndPrintln in a row add one message per line, in order. -/
theorem printAll_msgs (L : FormatLib) (ls : List (LogLine L)) :
    ∀ f : Output, (f.printAll L ls).Program.msgs
      = f.Program.msgs ++ ls.map (fun l =>
          { Line := L.BlueString (L.LocalRFC3339 l.ts) ++ " " ++ TrimSpace l.line,
            Done := false }) := by
  induction ls with
  | nil => intro f; simp [Output.printAll]
  | cons l rest ih =>
    intro f
    simp only [Output.printAll, ih, Output.FormatAndPrintln, delaySend_msgs, List.map_cons,
      List.append_assoc, List.singleton_append]

/-- C6: for every sequence of lines L1..Ln submitted in order through
FormatAndPrintln, one call after the other, the program is sent exactly n more
messages and the i-th of them is the formatting of Li (coloured timestamp,
space, trimmed text, with no condition on the raw text or the labels): nothing
is dropped, duplicated or reordered; and the same holds for delaySend with any
delay per message. -/
theorem lines_sent_in_order (L : FormatLib) (f : Output) (ls : List (LogLine L))
    (dms : List (Int × Msg)) :
    (f.printAll L ls).Program.msgs
      = f.Program.msgs ++ ls.map (fun l =>
          { Line := L.BlueString (L.LocalRFC3339 l.ts) ++ " " ++ TrimSpace l.line,
            Done := false })
    ∧ (f.printAll L ls).Program.msgs.length = f.Program.msgs.length + ls.length
    ∧ (∀ l : LogLine L, (freshOutput.FormatAndPrintln L l.ts l.lbls l.maxLabelsLen l.line).Program.msgs
        = [{ Line := L.BlueString (L.LocalRFC3339 l.ts) ++ " " ++ TrimSpace l.line,
             Done := false }])
    ∧ (f.delaySendAll dms).Program.msgs = f.Program.msgs ++ dms.map Prod.snd := by
  refine ⟨printAll_msgs L ls f, ?_, fun l => rfl, delaySendAll_msgs dms f⟩
  rw [printAll_msgs L ls f]
  simp

/-! ## The frame -/

/-- The loop of View adds each buffered line and a newline, in buffer order. -/
theorem foldl_lines (l : List Msg) :
    ∀ s : String, l.foldl (fun acc res => acc ++ (res.String ++ "\n")) s
      = s ++ String.join (l.map (fun r => r.Line ++ "\n")) := by
  induction l with
  | nil => intro s; simp [String.join]
  | cons r rest ih =>
    intro s
    rw [List.foldl_cons, ih]
    apply String.ext
    simp [String.data_join, Msg.String]

/-- C7 fails as stated: a Done box that holds the line "a" is drawn as the
completion mark and the wait message only, while the same box before Done was
drawn with the separator and the line below its first line. -/
theorem done_frame_drops_lines :
    LogBox.View id ({ New miniDot 3 "wait" [] with results := [line "a"] } : LogBox miniDot)
      = "⠋wait\n\na\n"
    ∧ LogBox.View id
        ({ New miniDot 3 "wait" [] with results := [line "a"], quitting := true }
          : LogBox miniDot)
      = "✓wait"
    ∧ "✓wait" ≠ "✓wait\n\na\n" :=
  ⟨by decide, by decide, by decide⟩

/-- C7 as amended: for every Done state the frame View produces, before the
margin style is applied, is exactly the completion mark followed by the wait
message; the separator and the buffered lines are not drawn (the buffer itself
is kept in the state). -/
theorem View_done (S : SpinnerLib) (appStyle : String → String) (lb : LogBox S)
    (hq : lb.quitting = true) :
    lb.View appStyle = appStyle ("✓" ++ lb.waitMessage) := by
  simp [LogBox.View, hq]

/-- C7 as amended, on a Done box holding two lines. -/
theorem View_done_witness :
    LogBox.View id
      ({ New miniDot 3 "wait" [] with results := [line "a", line "b"], quitting := true }
        : LogBox miniDot)
      = id ("✓" ++ "wait") :=
  View_done miniDot id
    { New miniDot 3 "wait" [] with results := [line "a", line "b"], quitting := true } rfl

/-- C8: for every state that is not Done the frame View produces, before the
margin style is applied, is the spinner frame, then the wait message, and then,
if and only if the buffer is non-empty, a newline ending the first line, a
newline making the blank separator line, and every buffered line followed by a
newline, in buffer order; with an empty buffer nothing follows the first
line. -/
theorem View_not_done (S : SpinnerLib) (appStyle : String → String) (lb : LogBox S)
    (hq : lb.quitting = false) :
    lb.View appStyle = appStyle (S.View lb.spinner ++ lb.waitMessage ++
      (if lb.results = [] then ""
       else "\n\n" ++ String.join (lb.results.map (fun r => r.Line ++ "\n")))) := by
  simp only [LogBox.View, hq, Bool.not_false, if_true, Bool.false_eq_true, if_false,
    String.empty_append, foldl_lines]
  cases hr : lb.results with
  | nil => simp [String.join]
  | cons r rest => simp [String.append_assoc]

/-- C8 on a box holding two lines, and on an empty box. -/
theorem View_not_done_witness :
    LogBox.View id
      ({ New miniDot 3 "wait" [] with results := [line "a", line "b"] } : LogBox miniDot)
      = id (miniDot.View (New miniDot 3 "wait" []).spinner ++ "wait" ++
          (if [line "a", line "b"] = [] then ""
           else "\n\n" ++ String.join ([line "a", line "b"].map (fun r => r.Line ++ "\n")))) :=
  View_not_done miniDot id { New miniDot 3 "wait" [] with results := [line "a", line "b"] } rfl

/-! ## Formatting of a line -/

theorem dropWhile_first {α : Type} (p : α → Bool) :
    ∀ (l : List α) (c : α) (t : List α), l.dropWhile p = c :: t → p c = false := by
  intro l
  induction l with
  | nil => intro c t h; simp at h
  | cons a l ih =>
    intro c t h
    rw [List.dropWhile_cons] at h
    by_cases ha : p a = true
    · rw [if_pos ha] at h; exact ih c t h
    · rw [if_neg ha] at h
      simp only [List.cons.injEq] at h
      rw [← h.1]; simpa using ha

theorem rdropWhile_append_rtakeWhile {α : Type} (p : α → Bool) (l : List α) :
    l.rdropWhile p ++ l.rtakeWhile p = l := by
  simp only [List.rdropWhile, List.rtakeWhile, ← List.reverse_append,
    List.takeWhile_append_dropWhile, List.reverse_reverse]

theorem rdropWhile_final {α : Type} (p : α → Bool) (l t : List α) (c : α)
    (h : l.rdropWhile p = t ++ [c]) : p c = false := by
  have hne : l.rdropWhile p ≠ [] := by rw [h]; simp
  have hlast := List.rdropWhile_last_not p l hne
  have e : (l.rdropWhile p).getLast hne = c := by simp [h]
  rw [e] at hlast
  simpa using hlast

/-- TrimSpace takes white space off both ends and nothing else: the string is
white space, then the trimmed text, then white space, and the trimmed text
neither starts nor ends with white space. -/
theorem TrimSpace_spec (s : String) :
    (∃ pre post : List Char, s.data = pre ++ (TrimSpace s).data ++ post
      ∧ (∀ c ∈ pre, IsSpace c = true) ∧ (∀ c ∈ post, IsSpace c = true))
    ∧ (∀ c t, (TrimSpace s).data = c :: t → IsSpace c = false)
    ∧ (∀ c t, (TrimSpace s).data = t ++ [c] → IsSpace c = false) := by
  refine ⟨⟨s.data.takeWhile IsSpace, (s.data.dropWhile IsSpace).rtakeWhile IsSpace,
    ?_, ?_, ?_⟩, ?_, ?_⟩
  · simp only [TrimSpace, List.append_assoc]
    rw [rdropWhile_append_rtakeWhile, List.takeWhile_append_dropWhile]
  · intro c hc; exact (List.mem_takeWhile_imp hc)
  · intro c hc; exact (List.mem_rtakeWhile_imp hc)
  · intro c t h
    simp only [TrimSpace] at h
    have hd := rdropWhile_append_rtakeWhile IsSpace (s.data.dropWhile IsSpace)
    rw [h] at hd
    exact dropWhile_first IsSpace s.data c _ hd.symm
  · intro c t h
    exact rdropWhile_final IsSpace _ t c h

/-- A string with a character that is not white space does not trim to the
empty string. -/
theorem TrimSpace_ne_empty (s : String) (h : ∃ c ∈ s.data, IsSpace c = false) :
    (TrimSpace s).data ≠ [] := by
  obtain ⟨c, hc, hs⟩ := h
  intro he
  obtain ⟨⟨pre, post, hdec, hpre, hpost⟩, _, _⟩ := TrimSpace_spec s
  rw [hdec, he] at hc
  simp only [List.append_nil, List.mem_append] at hc
  rcases hc with hc | hc
  · rw [hpre c hc] at hs; cases hs
  · rw [hpost c hc] at hs; cases hs

/-- A string of white space only trims to the empty string. -/
theorem TrimSpace_blank (s : String) (h : ∀ c ∈ s.data, IsSpace c = true) :
    TrimSpace s = "" := by
  apply String.ext
  have h1 : s.data.dropWhile IsSpace = [] := List.dropWhile_eq_nil_iff.mpr h
  simp [TrimSpace, h1]

/-- C9: for every timestamp, label set, maxLabelsLen and raw line,
FormatAndPrintln sends one message, with Done false and with Line the coloured
local RFC 3339 rendering of the timestamp, one space, and the raw line trimmed;
the call does not depend on the labels or on maxLabelsLen; and the trimmed text
is the raw line without a leading and a trailing run of white space, so that it
neither starts nor ends with white space and everything between, interior white
space included, is kept. -/
theorem FormatAndPrintln_line (L : FormatLib) (f : Output) (ts : L.Time)
    (lbls : LabelSet) (maxLabelsLen : Int) (raw : String) :
    ∃ m, (f.FormatAndPrintln L ts lbls maxLabelsLen raw).Program.msgs
        = f.Program.msgs ++ [m]
      ∧ m.Done = false
      ∧ m.Line = L.BlueString (L.LocalRFC3339 ts) ++ " " ++ TrimSpace raw
      ∧ (∀ (lbls2 : LabelSet) (n2 : Int),
          f.FormatAndPrintln L ts lbls2 n2 raw
            = f.FormatAndPrintln L ts lbls maxLabelsLen raw)
      ∧ (∃ pre post : List Char, raw.data = pre ++ (TrimSpace raw).data ++ post
          ∧ (∀ c ∈ pre, IsSpace c = true) ∧ (∀ c ∈ post, IsSpace c = true))
      ∧ (∀ c t, (TrimSpace raw).data = c :: t → IsSpace c = false)
      ∧ (∀ c t, (TrimSpace raw).data = t ++ [c] → IsSpace c = false) :=
  ⟨_, rfl, rfl, rfl, fun _ _ => rfl, TrimSpace_spec raw⟩

/-- C10 fails as stated: for an empty raw line, and for one of white space
only, the line text is the rendering of the timestamp followed by a space, so
it ends with a white space character. -/
theorem blank_line_ends_with_space :
    (freshOutput.FormatAndPrintln sampleFormat "2023-05-04T10:20:30+02:00" [] 0
        "").Program.msgs
      = [{ Line := "\x1b[34m2023-05-04T10:20:30+02:00\x1b[0m ", Done := false }]
    ∧ (freshOutput.FormatAndPrintln sampleFormat "2023-05-04T10:20:30+02:00" [] 0
        " \t\n").Program.msgs
      = [{ Line := "\x1b[34m2023-05-04T10:20:30+02:00\x1b[0m ", Done := false }]
    ∧ "\x1b[34m2023-05-04T10:20:30+02:00\x1b[0m ".data.getLast? = some ' '
    ∧ IsSpace ' ' = true :=
  ⟨by decide, by decide, by decide, by decide⟩

/-- C10 as amended: for every timestamp T whose coloured rendering starts with
a character that is not white space, and every raw line, the line text sent is
T's coloured rendering, one space and the trimmed raw line, and it has no
leading white space; it has no trailing white space either when the raw line
has a character that is not white space; for an empty or white-space-only raw
line it is the rendering followed by one space. -/
theorem formatted_line_outer_space (L : FormatLib) (f : Output) (ts : L.Time)
    (lbls : LabelSet) (maxLabelsLen : Int) (raw : String)
    (hts : ∃ c t, (L.BlueString (L.LocalRFC3339 ts)).data = c :: t ∧ IsSpace c = false) :
    ∃ m, (f.FormatAndPrintln L ts lbls maxLabelsLen raw).Program.msgs
        = f.Program.msgs ++ [m]
      ∧ m.Line = L.BlueString (L.LocalRFC3339 ts) ++ " " ++ TrimSpace raw
      ∧ (∀ c t, m.Line.data = c :: t → IsSpace c = false)
      ∧ ((∃ c ∈ raw.data, IsSpace c = false) →
          ∀ c t, m.Line.data = t ++ [c] → IsSpace c = false)
      ∧ ((∀ c ∈ raw.data, IsSpace c = true) →
          m.Line = L.BlueString (L.LocalRFC3339 ts) ++ " ") := by
  obtain ⟨c0, t0, hB, hc0⟩ := hts
  refine ⟨_, rfl, rfl, ?_, ?_, ?_⟩
  · intro c t h
    simp only [String.data_append, hB, List.cons_append, List.cons.injEq] at h
    rw [← h.1]; exact hc0
  · intro hraw c t h
    have hne := TrimSpace_ne_empty raw hraw
    rcases List.eq_nil_or_concat (TrimSpace raw).data with he | ⟨t1, c1, he⟩
    · exact absurd he hne
    · rw [List.concat_eq_append] at he
      have hc1 := (TrimSpace_spec raw).2.2 c1 t1 he
      simp only [String.data_append, he, ← List.append_assoc] at h
      have hlast := (List.append_inj' h rfl).2
      simp only [List.cons.injEq, and_true] at hlast
      rw [← hlast]; exact hc1
  · intro hblank
    simp only [TrimSpace_blank raw hblank, String.append_empty]

/-- C10 as amended, on the raw line of the specification. -/
theorem formatted_line_outer_space_witness :
    ∃ m, (freshOutput.FormatAndPrintln sampleFormat "2023-05-04T10:20:30+02:00" [] 0
          "  hello world  \n").Program.msgs
        = freshOutput.Program.msgs ++ [m]
      ∧ m.Line = sampleFormat.BlueString
            (sampleFormat.LocalRFC3339 "2023-05-04T10:20:30+02:00")
          ++ " " ++ TrimSpace "  hello world  \n"
      ∧ (∀ c t, m.Line.data = c :: t → IsSpace c = false)
      ∧ ((∃ c ∈ "  hello world  \n".data, IsSpace c = false) →
          ∀ c t, m.Line.data = t ++ [c] → IsSpace c = false)
      ∧ ((∀ c ∈ "  hello world  \n".data, IsSpace c = true) →
          m.Line = sampleFormat.BlueString
              (sampleFormat.LocalRFC3339 "2023-05-04T10:20:30+02:00") ++ " ") :=
  formatted_line_outer_space sampleFormat freshOutput "2023-05-04T10:20:30+02:00" [] 0
    "  hello world  \n" ⟨'\x1b', _, rfl, by decide⟩

/-! ## Terminal message and keys -/

/-- C11: for every log box state and every terminal content message, whatever
its Line, Update returns the state with the done flag set, together with the
exit command, and every other field, the buffer included, as it was: the
message is not appended and no line is evicted. In the scenario of height 3
with the lines a, b, c, d and then the terminal message, the buffer is b, c, d
and the state is Done. -/
theorem terminal_message_done (S : SpinnerLib) :
    (∀ (lb : LogBox S) (text : String),
        lb.Update (TeaMsg.Msg { Line := text, Done := true })
          = Except.ok ({ lb with quitting := true }, Cmd.Quit))
    ∧ (∀ (w : String) (i : List Bool), ∃ lb,
        feed (New S 3 w i)
            ([line "a", line "b", line "c", line "d", { Line := "", Done := true }].map
              TeaMsg.Msg) = Except.ok lb
          ∧ lb.results = [line "b", line "c", line "d"] ∧ lb.quitting = true) := by
  refine ⟨fun lb text => rfl, fun w i => ?_⟩
  have hf := feed_content 3 (by decide) [line "a", line "b", line "c", line "d"]
    (New S 3 w i) rfl (by simp [New]) (by decide)
  refine ⟨{ New S 3 w i with
    results := [line "b", line "c", line "d"], quitting := true }, ?_, rfl, rfl⟩
  have hsplit : ([line "a", line "b", line "c", line "d", { Line := "", Done := true }].map
      (TeaMsg.Msg : Msg → TeaMsg S))
      = [line "a", line "b", line "c", line "d"].map TeaMsg.Msg
        ++ [TeaMsg.Msg { Line := "", Done := true }] := rfl
  rw [hsplit, feed_append, hf]
  rfl

/-- A run of spinner ticks goes through and changes the spinner at most. -/
theorem feed_ticks {S : SpinnerLib} (ticks : List S.TickMsg) :
    ∀ lb : LogBox S, ∃ lb1, feed lb (ticks.map TeaMsg.TickMsg) = Except.ok lb1
      ∧ lb1.core = lb.core := by
  induction ticks with
  | nil => intro lb; exact ⟨lb, rfl, rfl⟩
  | cons t ts ih =>
    intro lb
    obtain ⟨lb1, hf, hc⟩ := ih { lb with spinner := (S.Update lb.spinner t).1 }
    exact ⟨lb1, by simpa [feed, LogBox.Update] using hf, hc⟩

/-- C12: for every log box state, Update on one quit key (ctrl+c or ctrl+d)
writes exactly one value to the interrupt channel, after those already there,
returns the exit command and leaves the buffer and every other field as they
were; in particular, from New followed by any number of spinner ticks and then
one quit key, exactly one signal has been written, the exit command is
returned and the buffer is empty. -/
theorem quit_key_signals_once (S : SpinnerLib) (lb : LogBox S) (s : String)
    (hs : s = "ctrl+c" ∨ s = "ctrl+d") :
    lb.Update (TeaMsg.KeyMsg s)
      = Except.ok ({ lb with interrupt := lb.interrupt ++ [true] }, Cmd.Quit)
    ∧ ∀ (height : Int) (w : String) (i : List Bool) (ticks : List S.TickMsg),
        ∃ lb1 lb2, feed (New S height w i) (ticks.map TeaMsg.TickMsg) = Except.ok lb1
          ∧ lb1.Update (TeaMsg.KeyMsg s) = Except.ok (lb2, Cmd.Quit)
          ∧ lb2.interrupt = i ++ [true] ∧ lb2.results = [] := by
  refine ⟨by simp only [LogBox.Update, if_pos hs], fun height w i ticks => ?_⟩
  obtain ⟨lb1, hf, hc⟩ := feed_ticks ticks (New S height w i)
  simp only [LogBox.core, New, Prod.mk.injEq] at hc
  refine ⟨lb1, { lb1 with interrupt := lb1.interrupt ++ [true] }, hf,
    by simp only [LogBox.Update, if_pos hs], ?_, hc.2.2.1⟩
  simp only [hc.2.2.2.2]

/-- C12 in the scenario of the specification: two ticks, then ctrl+c, on a
fresh box with nothing on the interrupt channel. -/
theorem quit_key_signals_once_witness :
    ∃ lb1 lb2 : LogBox miniDot,
      feed (New miniDot 3 "wait" []) ([(), ()].map TeaMsg.TickMsg) = Except.ok lb1
      ∧ lb1.Update (TeaMsg.KeyMsg "ctrl+c") = Except.ok (lb2, Cmd.Quit)
      ∧ lb2.interrupt = [] ++ [true] ∧ lb2.results = [] :=
  (quit_key_signals_once miniDot (New miniDot 3 "wait" []) "ctrl+c" (Or.inl rfl)).2
    3 "wait" [] [(), ()]

/-- C13: for every log box state and every key whose string is neither ctrl+c
nor ctrl+d, Update returns the state unchanged in every field and no command,
so nothing is written to the interrupt channel; and for every key, the
interrupt channel is written if and only if the key is ctrl+c or ctrl+d. -/
theorem other_key_ignored (S : SpinnerLib) (lb : LogBox S) (s : String) :
    (s ≠ "ctrl+c" → s ≠ "ctrl+d" → lb.Update (TeaMsg.KeyMsg s) = Except.ok (lb, Cmd.nil))
    ∧ ∃ lb1 c, lb.Update (TeaMsg.KeyMsg s) = Except.ok (lb1, c)
        ∧ (lb1.interrupt ≠ lb.interrupt ↔ (s = "ctrl+c" ∨ s = "ctrl+d")) := by
  by_cases hs : s = "ctrl+c" ∨ s = "ctrl+d"
  · refine ⟨fun h1 h2 => absurd hs (by simp [h1, h2]), _, _,
      by simp only [LogBox.Update, if_pos hs]; rfl, ?_⟩
    simp [hs]
  · refine ⟨fun _ _ => by simp only [LogBox.Update, if_neg hs], lb, Cmd.nil,
      by simp only [LogBox.Update, if_neg hs], ?_⟩
    simp [hs]

/-- C13 on the key q, on a box that holds a line. -/
theorem other_key_ignored_witness :
    ({ New miniDot 3 "wait" [] with results := [line "a"] } : LogBox miniDot).Update
        (TeaMsg.KeyMsg "q")
      = Except.ok ({ New miniDot 3 "wait" [] with results := [line "a"] }, Cmd.nil) :=
  (other_key_ignored miniDot { New miniDot 3 "wait" [] with results := [line "a"] } "q").1
    (by decide) (by decide)

/-! ## Heights below one -/

/-- With a negative height the capacity test is never met: a non-terminal
content message is appended and nothing is evicted. -/
theorem Update_content_negative {S : SpinnerLib} (lb : LogBox S) (m : Msg)
    (hh : lb.height < 0) (hm : m.Done = false) :
    lb.Update (TeaMsg.Msg m)
      = Except.ok ({ lb with results := lb.results ++ [m] }, Cmd.nil) := by
  have hne : ¬ (lb.results.length : Int) = lb.height := by omega
  simp only [LogBox.Update, hm, Bool.false_eq_true, if_false, if_neg hne]

/-- With a negative height a run of non-terminal content messages keeps them
all. -/
theorem feed_content_negative {S : SpinnerLib} (msgs : List Msg) :
    ∀ lb : LogBox S, lb.height < 0 → (∀ m ∈ msgs, m.Done = false) →
      feed lb (msgs.map TeaMsg.Msg)
        = Except.ok { lb with results := lb.results ++ msgs } := by
  induction msgs with
  | nil => intro lb _ _; simp [feed]
  | cons m ms ih =>
    intro lb hh hd
    have step := ih { lb with results := lb.results ++ [m] } hh
      (fun x hx => hd x (List.mem_cons_of_mem _ hx))
    simp only [List.map_cons, feed,
      Update_content_negative lb m hh (hd m (List.mem_cons_self _ _)), step]
    simp

/-- C18: the eviction policy of Update is safe and bounding for height ≥ 1
only. For every height ≥ 1, every run from New(height, ...) goes through and
Update answers every further message in the state reached, so the slice taken
on eviction is within bounds. For height 0 the first non-terminal content
message on New(0, ...) fails with a slice-bounds error. For every height < 0
the capacity test never fires: each non-terminal content message is appended,
so after a run of such messages from New the buffer holds all of them. -/
theorem eviction_needs_positive_height (S : SpinnerLib) (w : String) (i : List Bool) :
    (∀ (height : Int) (evs : List (TeaMsg S)) (e : TeaMsg S), 1 ≤ height →
        ∃ lb, feed (New S height w i) evs = Except.ok lb
          ∧ (lb.results.length : Int) ≤ height
          ∧ ∃ r, lb.Update e = Except.ok r)
    ∧ (∀ m : Msg, m.Done = false →
        (New S 0 w i).Update (TeaMsg.Msg m) = Except.error Fault.sliceBounds)
    ∧ (∀ (lb : LogBox S) (m : Msg), lb.height < 0 → m.Done = false →
        lb.Update (TeaMsg.Msg m)
          = Except.ok ({ lb with results := lb.results ++ [m] }, Cmd.nil))
    ∧ (∀ (height : Int) (msgs : List Msg), height < 0 → (∀ m ∈ msgs, m.Done = false) →
        feed (New S height w i) (msgs.map TeaMsg.Msg)
          = Except.ok { New S height w i with results := msgs }) := by
  refine ⟨fun height evs e hh => ?_, fun m hm => ?_,
    fun lb m hh hm => Update_content_negative lb m hh hm, fun height msgs hh hd => ?_⟩
  · obtain ⟨h, rfl⟩ := Int.eq_ofNat_of_zero_le (by omega : 0 ≤ height)
    obtain ⟨lb, hf, hH, hlen⟩ := feed_bounded h (by omega) evs (New S h w i) rfl
      (by simp [New])
    obtain ⟨lb1, c, hu, _, _⟩ := Update_bounded lb e h (by omega) hH hlen
    exact ⟨lb, hf, by exact_mod_cast hlen, (lb1, c), hu⟩
  · simp [LogBox.Update, hm, New]
  · have hf := feed_content_negative msgs (New S height w i) hh hd
    rw [hf]
    simp [New]

/-- C18 on concrete boxes: height 2 after three lines still answers, height 0
panics on the first line, height -1 keeps three lines. -/
theorem eviction_needs_positive_height_witness :
    (∃ lb, feed (New miniDot 2 "wait" [])
          [TeaMsg.Msg (line "a"), TeaMsg.Msg (line "b"), TeaMsg.Msg (line "c")]
          = Except.ok lb
        ∧ (lb.results.length : Int) ≤ 2
        ∧ ∃ r, lb.Update (TeaMsg.Msg (line "d")) = Except.ok r)
    ∧ (New miniDot 0 "wait" []).Update (TeaMsg.Msg (line "a"))
        = Except.error Fault.sliceBounds
    ∧ feed (New miniDot (-1) "wait" []) ([line "a", line "b", line "c"].map TeaMsg.Msg)
        = Except.ok { New miniDot (-1) "wait" [] with
            results := [line "a", line "b", line "c"] } :=
  ⟨(eviction_needs_positive_height miniDot "wait" []).1 2 _ (TeaMsg.Msg (line "d"))
      (by decide),
   (eviction_needs_positive_height miniDot "wait" []).2.1 (line "a") rfl,
   (eviction_needs_positive_height miniDot "wait" []).2.2.2 (-1)
      [line "a", line "b", line "c"] (by decide) (by decide)⟩

/-! ## The end of the stream and the writer hook -/

/-- C14 fails as stated: the log source reaches the adapter through
FormatAndPrintln only, so a stream that ends after two lines, or after none,
leaves a queue without any message that has Done set, where the claim wants
exactly one, in last place. -/
theorem output_sends_no_terminal :
    (freshOutput.printAll sampleFormat
        [{ ts := "2023-05-04T10:20:30+02:00", lbls := [], maxLabelsLen := 0, line := "one" },
         { ts := "2023-05-04T10:20:31+02:00", lbls := [], maxLabelsLen := 0, line := "two" }]
      ).Program.msgs
      = [{ Line := "\x1b[34m2023-05-04T10:20:30+02:00\x1b[0m one", Done := false },
         { Line := "\x1b[34m2023-05-04T10:20:31+02:00\x1b[0m two", Done := false }]
    ∧ doneCount (freshOutput.printAll sampleFormat
        [{ ts := "2023-05-04T10:20:30+02:00", lbls := [], maxLabelsLen := 0, line := "one" },
         { ts := "2023-05-04T10:20:31+02:00", lbls := [], maxLabelsLen := 0, line := "two" }]
      ).Program.msgs = 0
    ∧ doneCount (freshOutput.printAll sampleFormat []).Program.msgs = 0
    ∧ (0 : Nat) ≠ 1 :=
  ⟨by decide, by decide, by decide, by decide⟩

/-- C14 as amended: the adapter Output sends no message with Done set. For
every sequence of lines handed to FormatAndPrintln, however the stream ends
after them, the queue of the program grows by one message per line, each with
Done false, and the number of messages with Done set stays what it was; and
WithWriter sends nothing. The terminal message is left to the code that owns
the stream and the program. -/
theorem output_never_done (L : FormatLib) (f : Output) (ls : List (LogLine L)) :
    (∃ sent, (f.printAll L ls).Program.msgs = f.Program.msgs ++ sent
        ∧ sent.length = ls.length ∧ ∀ m ∈ sent, m.Done = false)
    ∧ doneCount (f.printAll L ls).Program.msgs = doneCount f.Program.msgs
    ∧ (∀ (W : Type) (w : W), (f.WithWriter w).1.Program.msgs = f.Program.msgs) := by
  refine ⟨⟨_, printAll_msgs L ls f, by simp, ?_⟩, ?_, fun _ _ => rfl⟩
  · intro m hm
    simp only [List.mem_map] at hm
    obtain ⟨l, _, rfl⟩ := hm
    rfl
  · rw [printAll_msgs L ls f]
    simp [doneCount, List.countP_eq_zero]

/-- C15: for every writer w, WithWriter(w) returns the very same Output and
leaves w as it was; so the lines formatted through the returned output are
sent to the program as they are through the output itself, one message per
line in order, after the sleep of delaySend, and the writer plays no part in
it. -/
theorem WithWriter_same_output (W : Type) (f : Output) (w : W) (L : FormatLib)
    (ls : List (LogLine L)) :
    f.WithWriter w = (f, w)
    ∧ (f.WithWriter w).1.printAll L ls = f.printAll L ls
    ∧ ((f.WithWriter w).1.printAll L ls).Program.msgs
        = f.Program.msgs ++ ls.map (fun l =>
            { Line := L.BlueString (L.LocalRFC3339 l.ts) ++ " " ++ TrimSpace l.line,
              Done := false })
    ∧ (∀ (ts : L.Time) (lbls : LabelSet) (n : Int) (raw : String),
        (f.WithWriter w).1.FormatAndPrintln L ts lbls n raw
          = f.delaySend (Millisecond * 10)
              { Line := L.BlueString (L.LocalRFC3339 ts) ++ " " ++ TrimSpace raw,
                Done := false }) :=
  ⟨rfl, rfl, printAll_msgs L ls f, fun _ _ _ _ => rfl⟩

end Logbox

namespace Get

/-! ## The rows of the get command -/

theorem length_ne_zero_iff (s : String) : (s.length != 0) = true ↔ s ≠ "" := by
  have hlen : s.length = s.data.length := rfl
  constructor
  · intro h he
    rw [he] at h
    revert h
    decide
  · intro h
    have hd : s.data ≠ [] := fun hd => h (String.ext hd)
    have hpos : s.data.length ≠ 0 := fun h0 => hd (List.length_eq_zero.mp h0)
    rw [hlen]
    exact bne_iff_ne.mpr hpos

theorem join_append (a b : List String) :
    String.join (a ++ b) = String.join a ++ String.join b := by
  apply String.ext
  simp [String.data_join]

theorem join_singleton (a : String) : String.join [a] = a := by
  apply String.ext
  simp [String.data_join]

/-- The loop of writeTabRow hands one chunk per cell to the writer, the cell
followed by a tab, in the order of the row. -/
theorem foldl_cells (row : List String) :
    ∀ w : Writer, row.foldl (fun w r => Fprintf w (r ++ "\t")) w
      = { chunks := w.chunks ++ row.map (fun r => r ++ "\t") } := by
  induction row with
  | nil => intro w; simp
  | cons r rest ih =>
    intro w
    rw [List.foldl_cons, ih]
    simp [Fprintf]

/-- The chunks writeTabRow hands to the writer. -/
theorem writeTabRow_chunks (cmd : Cmd) (w : Writer) (nspace : String) (row : List String) :
    (cmd.writeTabRow w nspace row).chunks
      = w.chunks ++ (if cmd.AllNamespaces = true ∧ nspace ≠ "" then [nspace ++ "\t"] else [])
          ++ row.map (fun r => r ++ "\t") ++ ["\n"] := by
  simp only [Cmd.writeTabRow, foldl_cells]
  simp only [Fprintf, Bool.and_eq_true, length_ne_zero_iff]
  by_cases h : cmd.AllNamespaces = true ∧ nspace ≠ ""
  · simp only [if_pos h]
  · simp only [if_neg h, List.append_nil]

/-- C16: for every Cmd, writer, namespace and row, writeTabRow writes after
what the writer already holds: the namespace followed by a tab if and only if
AllNamespaces is set and the namespace is not empty, then each row element
followed by a tab, in order, then one newline. -/
theorem writeTabRow_bytes (cmd : Cmd) (w : Writer) (nspace : String) (row : List String) :
    (cmd.writeTabRow w nspace row).bytes
      = w.bytes ++ (if cmd.AllNamespaces = true ∧ nspace ≠ "" then nspace ++ "\t" else "")
          ++ String.join (row.map (fun r => r ++ "\t")) ++ "\n" := by
  simp only [Writer.bytes, writeTabRow_chunks, join_append, join_singleton]
  by_cases h : cmd.AllNamespaces = true ∧ nspace ≠ ""
  · simp only [if_pos h, join_singleton]
  · simp only [if_neg h]
    rfl

/-- The chunks writeHeader hands to the writer. -/
theorem writeHeader_chunks (cmd : Cmd) (w : Writer) (headings : List String) :
    (cmd.writeHeader w headings).chunks
      = w.chunks
          ++ (if cmd.AllNamespaces = true then "NAMESPACE" :: headings
              else headings).map (fun r => r ++ "\t")
          ++ ["\n"] := by
  simp only [Cmd.writeHeader, writeTabRow_chunks]
  cases cmd.AllNamespaces <;> simp

/-- C17: for every Cmd, writer and list of headings, writeHeader writes one
row after what the writer already holds: with AllNamespaces set, NAMESPACE
once, as the first column, followed by the headings in order, else the
headings alone; every column is followed by a tab and the row ends with the
only newline chunk. -/
theorem writeHeader_bytes (cmd : Cmd) (w : Writer) (headings : List String) :
    (cmd.writeHeader w headings).bytes
      = w.bytes
          ++ String.join ((if cmd.AllNamespaces = true then "NAMESPACE" :: headings
              else headings).map (fun r => r ++ "\t"))
          ++ "\n"
    ∧ (cmd.writeHeader w headings).chunks
      = w.chunks
          ++ (if cmd.AllNamespaces = true then "NAMESPACE" :: headings
              else headings).map (fun r => r ++ "\t")
          ++ ["\n"] := by
  constructor
  · simp only [Cmd.writeHeader, writeTabRow_bytes]
    cases cmd.AllNamespaces <;> simp [String.append_empty]
  · exact writeHeader_chunks cmd w headings

theorem writer_of_chunks (w : Writer) (l : List String) (h : w.chunks = l) :
    w = { chunks := l } := by
  cases w
  simp only at h
  rw [h]

/-- The tabs in a run of cells, each followed by a tab: one per cell when no
cell holds a tab itself. -/
theorem tabs_of_cells (cells : List String) :
    (∀ c ∈ cells, '\t' ∉ c.data) →
      (String.join (cells.map (fun r => r ++ "\t"))).data.count '\t' = cells.length := by
  induction cells with
  | nil => intro _; rfl
  | cons c rest ih =>
    intro h
    have hc : c.data.count '\t' = 0 :=
      List.count_eq_zero_of_not_mem (h c (List.mem_cons_self _ _))
    have hrest := ih (fun x hx => h x (List.mem_cons_of_mem _ hx))
    simp only [String.data_join] at hrest
    have htab : "\t".data = ['\t'] := rfl
    simp only [String.data_join, List.map_cons, List.flatten_cons, String.data_append,
      List.count_append, hc, hrest, htab, List.length_cons]
    simp [Nat.add_comm]

/-- A row of cells without tabs written to an empty writer counts one column
per cell. -/
theorem columns_of_cells (cells : List String) (h : ∀ c ∈ cells, '\t' ∉ c.data) :
    Writer.columns { chunks := cells.map (fun r => r ++ "\t") ++ ["\n"] } = cells.length := by
  have hnl : "\n".data.count '\t' = 0 := by decide
  simp only [Writer.columns, Writer.bytes, join_append, join_singleton, String.data_append,
    List.count_append, tabs_of_cells cells h, hnl, Nat.add_zero]

/-- C19 fails as stated: with AllNamespaces set and the empty namespace, the
header over the heading NAME has the two columns NAMESPACE and NAME, and the
data row has the one column x; and a row element that holds a tab gives its
line a column more than the header has, also under a namespace that is not
empty. -/
theorem empty_namespace_row_misaligned :
    (Cmd.writeHeader { Output := "full", AllNamespaces := true } emptyWriter ["NAME"]).bytes
      = "NAMESPACE\tNAME\t\n"
    ∧ (Cmd.writeTabRow { Output := "full", AllNamespaces := true } emptyWriter "" ["x"]).bytes
      = "x\t\n"
    ∧ (Cmd.writeHeader { Output := "full", AllNamespaces := true } emptyWriter
        ["NAME"]).columns = 2
    ∧ (Cmd.writeTabRow { Output := "full", AllNamespaces := true } emptyWriter ""
        ["x"]).columns = 1
    ∧ (Cmd.writeTabRow { Output := "full", AllNamespaces := true } emptyWriter "prod"
        ["a\tb"]).bytes = "prod\ta\tb\t\n"
    ∧ (Cmd.writeTabRow { Output := "full", AllNamespaces := true } emptyWriter "prod"
        ["a\tb"]).columns = 3
    ∧ (2 : Nat) ≠ 1 ∧ (2 : Nat) ≠ 3 :=
  ⟨by decide, by decide, by decide, by decide, by decide, by decide, by decide, by decide⟩

/-- C19 as amended: for every Cmd with AllNamespaces set, every headings list
and row of equal length and every namespace, where no heading, no row element
and not the namespace holds a tab character, the header line has one
tab-terminated column more than there are headings; for every namespace that
is not empty the data line has the same number of tab-terminated columns as
the header line, the namespace standing under NAMESPACE; for the empty
namespace the data line has one column less than the header line. The columns
are counted on the bytes written. -/
theorem columns_aligned (cmd : Cmd) (nspace : String) (headings row : List String)
    (hall : cmd.AllNamespaces = true) (hlen : headings.length = row.length)
    (hheadings : ∀ c ∈ headings, '\t' ∉ c.data) (hrow : ∀ c ∈ row, '\t' ∉ c.data)
    (hnspace : '\t' ∉ nspace.data) :
    (cmd.writeHeader emptyWriter headings).columns = headings.length + 1
    ∧ (cmd.writeHeader emptyWriter headings).bytes
        = String.join (("NAMESPACE" :: headings).map (fun r => r ++ "\t")) ++ "\n"
    ∧ (nspace ≠ "" →
        (cmd.writeTabRow emptyWriter nspace row).columns
          = (cmd.writeHeader emptyWriter headings).columns
        ∧ (cmd.writeTabRow emptyWriter nspace row).bytes
          = String.join ((nspace :: row).map (fun r => r ++ "\t")) ++ "\n")
    ∧ (nspace = "" →
        (cmd.writeTabRow emptyWriter nspace row).columns + 1
          = (cmd.writeHeader emptyWriter headings).columns
        ∧ (cmd.writeTabRow emptyWriter nspace row).bytes
          = String.join (row.map (fun r => r ++ "\t")) ++ "\n") := by
  have hhead : (cmd.writeHeader emptyWriter headings)
      = { chunks := ("NAMESPACE" :: headings).map (fun r => r ++ "\t") ++ ["\n"] } := by
    have hc := (writeHeader_chunks cmd emptyWriter headings)
    rw [hall] at hc
    simp only [if_true, emptyWriter, List.nil_append] at hc
    exact writer_of_chunks _ _ hc
  have hcells : ∀ c ∈ "NAMESPACE" :: headings, '\t' ∉ c.data := by
    intro c hc
    rcases List.mem_cons.mp hc with rfl | hc
    · decide
    · exact hheadings c hc
  have hcols : (cmd.writeHeader emptyWriter headings).columns = headings.length + 1 := by
    rw [hhead, columns_of_cells _ hcells]; rfl
  refine ⟨hcols, ?_, fun hns => ?_, fun hns => ?_⟩
  · rw [hhead]
    simp only [Writer.bytes, join_append, join_singleton]
  · have hc := writeTabRow_chunks cmd emptyWriter nspace row
    rw [if_pos ⟨hall, hns⟩] at hc
    simp only [emptyWriter, List.nil_append, List.singleton_append] at hc
    have hline : cmd.writeTabRow emptyWriter nspace row
        = { chunks := (nspace :: row).map (fun r => r ++ "\t") ++ ["\n"] } :=
      writer_of_chunks _ _ hc
    have hcells2 : ∀ c ∈ nspace :: row, '\t' ∉ c.data := by
      intro c hc
      rcases List.mem_cons.mp hc with rfl | hc
      · exact hnspace
      · exact hrow c hc
    refine ⟨?_, ?_⟩
    · rw [hcols, hline, columns_of_cells _ hcells2, List.length_cons, hlen]
    · rw [hline]
      simp only [Writer.bytes, join_append, join_singleton]
  · have hc := writeTabRow_chunks cmd emptyWriter nspace row
    rw [if_neg (fun h => h.2 hns)] at hc
    simp only [emptyWriter, List.nil_append, List.append_nil] at hc
    have hline : cmd.writeTabRow emptyWriter nspace row
        = { chunks := row.map (fun r => r ++ "\t") ++ ["\n"] } :=
      writer_of_chunks _ _ hc
    refine ⟨?_, ?_⟩
    · rw [hcols, hline, columns_of_cells _ hrow, hlen]
    · rw [hline]
      simp only [Writer.bytes, join_append, join_singleton]

/-- C19 as amended, on the namespace prod and on the empty namespace. -/
theorem columns_aligned_witness :
    ((Cmd.writeTabRow { Output := "full", AllNamespaces := true } emptyWriter "prod"
        ["web", "3d"]).columns
      = (Cmd.writeHeader { Output := "full", AllNamespaces := true } emptyWriter
        ["NAME", "AGE"]).columns)
    ∧ ((Cmd.writeTabRow { Output := "full", AllNamespaces := true } emptyWriter ""
        ["web", "3d"]).columns + 1
      = (Cmd.writeHeader { Output := "full", AllNamespaces := true } emptyWriter
        ["NAME", "AGE"]).columns) :=
  ⟨((columns_aligned { Output := "full", AllNamespaces := true } "prod" ["NAME", "AGE"]
      ["web", "3d"] rfl rfl (by decide) (by decide) (by decide)).2.2.1 (by decide)).1,
   ((columns_aligned { Output := "full", AllNamespaces := true } "" ["NAME", "AGE"]
      ["web", "3d"] rfl rfl (by decide) (by decide) (by decide)).2.2.2 rfl).1⟩

end Get
